import Mathlib

/-!
# Verification of `workflow/scripts/tree_distances.py`

A shallow embedding of the Boot-Split Distance (BSD) / Robinson-Foulds
distance-matrix script, together with theorems settling the specification
claims about it.

## Modelling conventions

* Python floats are modelled as `ℚ` (all arithmetic in the script is on
  small decimal fractions; no float-rounding behaviour is load-bearing for
  any claim).
* Fallible Python code (raising exceptions) is modelled with
  `Except PyError`.  Python's `/` raises `ZeroDivisionError` when the
  divisor is zero, so every source-level division is guarded.
* The dendropy library is an external collaborator that is not part of this
  repository.  Its behaviour is modelled from the specification's data
  model and collaborator interfaces:
  - a `Tree` carries its taxa and its (already encoded) bipartitions, and
    enumerating a tree enumerates its bipartitions;
  - `tree.encode_bipartitions()` returns the tree's bipartition list;
  - a `Bipartition` carries its `split_bitmask`, its optional support
    `label` (an integer percentage; dendropy stores it as a string and the
    script casts it with `int`, modelled here by taking the label as an
    integer directly) and its Newick-string rendering
    (`split_as_newick_string`);
  - bipartition identity is solely the split bitmask, and comparing a raw
    integer bitmask with a bipartition object compares it with that
    object's bitmask (dendropy bipartitions are integer-compatible: the
    split bitmask is the object's integer value and its hash).
-/

set_option linter.unusedVariables false

namespace TreeDistances

/-- Errors the embedded script can signal.  `nameError`, `assertionError`
and `zeroDivisionError` model the Python exceptions of the same names.
`insufficientOverlap` is the error category the specification demands for
tree pairs sharing fewer than 4 taxa; it is included so that the absence of
that behaviour in the code is statable. -/
inductive PyError where
  | nameError (name : String)
  | assertionError
  | zeroDivisionError
  | insufficientOverlap
  deriving DecidableEq

/-- A dendropy `Bipartition` (external collaborator, modelled from the
spec's data model): a split bitmask over the taxon namespace, an optional
bootstrap-support label, and its Newick-string rendering. -/
structure Bipartition where
  split_bitmask : Nat
  label : Option Int
  newick : String
  deriving DecidableEq

/-- A dendropy `Tree` after `encode_bipartitions()` (external collaborator,
modelled from the spec's data model): its taxa and its encoded bipartition
sequence. -/
structure Tree where
  taxa : List String
  bips : List Bipartition
  deriving DecidableEq

/-- Default tree used to model a list indexing expression (the script only
indexes within bounds). -/
def defaultTree : Tree := ⟨[], []⟩

/-- The bitmask sequence of a bipartition list. -/
def masks (l : List Bipartition) : List Nat :=
  l.map Bipartition.split_bitmask

/-- The shared leaf-set of two trees (the claim-side notion "taxa in
common"; the script itself never computes it, see `get_shared`). -/
def commonTaxa (t1 t2 : Tree) : List String :=
  t1.taxa.filter (· ∈ t2.taxa)

/-- Lines 26–41, `get_bipartitions(tree)`: for each `bip in tree` (tree
iteration enumerates the encoded bipartitions) it recomputes
`tree_bip = [split.split_as_newick_string(ns) for split in
tree.encode_bipartitions()]`, appends that whole list to `bip_strings`,
and appends `bip` itself to `bipartitions`. -/
def get_bipartitions (tree : Tree) : List Bipartition × List (List String) :=
  (tree.bips, tree.bips.map (fun _bip => tree.bips.map Bipartition.newick))

/-- The names that a lookup inside the body of `get_shared` can resolve to
a value: its two parameters.  The module's top level binds only imported
modules and function objects, in particular neither `firstTreeNodes` nor
`secondTreeNodes` is bound anywhere in `tree_distances.py`, so looking
those names up raises `NameError`. -/
def get_shared_env (firstTreeLeaves secondTreeLeaves : List String) :
    String → Option (List String) :=
  fun n =>
    if n = "firstTreeLeaves" then some firstTreeLeaves
    else if n = "secondTreeLeaves" then some secondTreeLeaves
    else none

/-- Lines 43–54, `get_shared(firstTreeLeaves, secondTreeLeaves)`: the body
evaluates `in_common = list(set(firstTreeNodes) & set(secondTreeNodes))`
(note the mismatched names) and then `assert (len(in_common) < 4)` — an
assertion that raises precisely when the overlap is big enough.  Name
resolution is explicit so that the `NameError` on the undefined
`firstTreeNodes` is part of the model rather than an assumption. -/
def get_shared (firstTreeLeaves secondTreeLeaves : List String) :
    Except PyError (List String) :=
  let env := get_shared_env firstTreeLeaves secondTreeLeaves
  match env "firstTreeNodes" with
  | none => .error (.nameError "firstTreeNodes")
  | some a =>
    match env "secondTreeNodes" with
    | none => .error (.nameError "secondTreeNodes")
    | some b =>
      let in_common := (a.filter (· ∈ b)).dedup
      if in_common.length < 4 then .ok in_common else .error .assertionError

/-- Lines 72–81, the first loop of `get_pruned_bips`: each element of
`bips1` is appended to `bipsEqual` if some element of `bips2` has the same
bitmask (`any(x.split_bitmask == bips1[i] for x in bips2)`), otherwise to
`bipsDiff`.  Returns `(bipsDiff, bipsEqual)`. -/
def firstLoop (bips2 : List Bipartition) :
    List Bipartition → List Bipartition × List Bipartition
  | [] => ([], [])
  | b :: rest =>
    let acc := firstLoop bips2 rest
    if bips2.any (fun x => x.split_bitmask == b.split_bitmask) then
      (acc.1, b :: acc.2)
    else
      (b :: acc.1, acc.2)

/-- Lines 83–94, the second loop of `get_pruned_bips`: each element of
`bips2` whose bitmask occurs in `bips1` is appended to `bipsEqual` unless
that list already holds its bitmask; otherwise it is appended to
`bipsDiff` unless that list already holds its bitmask.  The accumulator is
`(bipsDiff, bipsEqual)`. -/
def secondLoop (bips1 : List Bipartition) :
    List Bipartition → List Bipartition × List Bipartition →
      List Bipartition × List Bipartition
  | [], acc => acc
  | b :: rest, acc =>
    secondLoop bips1 rest
      (if bips1.any (fun x => x.split_bitmask == b.split_bitmask) then
        (if acc.2.any (fun x => x.split_bitmask == b.split_bitmask) then acc
         else (acc.1, acc.2 ++ [b]))
      else
        (if acc.1.any (fun x => x.split_bitmask == b.split_bitmask) then acc
         else (acc.1 ++ [b], acc.2)))

/-- Lines 63–96, `get_pruned_bips(bips1, bipStrings1, bips2, bipStrings2)`:
runs the two loops above and returns `(bipsDiff, bipsEqual)`.  The two
Newick-string arguments are accepted and never used, as in the source. -/
def get_pruned_bips (bips1 : List Bipartition) (bipStrings1 : List (List String))
    (bips2 : List Bipartition) (bipStrings2 : List (List String)) :
    List Bipartition × List Bipartition :=
  secondLoop bips1 bips2 (firstLoop bips2 bips1)

/-- Lines 98–117, `get_sum(bipartitions)`: collects the labels that are not
`None` into `nums`, casts them to `int`, divides each by 100, and returns
the sum together with `nums` (the raw label list, not the divided one). -/
def get_sum (bipartitions : List Bipartition) : ℚ × List Int :=
  let nums := bipartitions.foldl
    (fun acc b => match b.label with | some num => acc ++ [num] | none => acc) []
  let BS_vals := nums.map (fun n => (n : ℚ) / 100)
  (BS_vals.sum, nums)

/-- Lines 119–128, `get_mean_BSD(sumBS, listBS)`: `0` when `listBS` is
empty, else `sumBS / len(listBS)`. -/
def get_mean_BSD (sumBS : ℚ) (listBS : List Int) : ℚ :=
  if listBS.length = 0 then 0
  else sumBS / (listBS.length : ℚ)

/-- Lines 131–135, `eBSD`: `1 - ((sum_mutual_split_BS/sum_total_BS) *
mean_BS_mutual)`; Python's `/` raises `ZeroDivisionError` when
`sum_total_BS` is zero. -/
def eBSD (sum_total_BS sum_mutual_split_BS mean_BS_mutual : ℚ) : Except PyError ℚ :=
  if sum_total_BS = 0 then .error .zeroDivisionError
  else .ok (1 - sum_mutual_split_BS / sum_total_BS * mean_BS_mutual)

/-- Lines 137–141, `dBSD`: `(sum_diff_split_BS/sum_total_BS) *
mean_BS_diff`, with the same division-by-zero behaviour. -/
def dBSD (sum_total_BS sum_diff_split_BS mean_BS_diff : ℚ) : Except PyError ℚ :=
  if sum_total_BS = 0 then .error .zeroDivisionError
  else .ok (sum_diff_split_BS / sum_total_BS * mean_BS_diff)

/-- Lines 143–151, `BSD`: computes `eBSD` and `dBSD` and returns
`((equalBSD+diffBSD)/2, equalBSD, diffBSD)`. -/
def BSD (sum_total_BS sum_mutual_split_BS sum_diff_split_BS
    mean_BS_mutual mean_BS_diff : ℚ) : Except PyError (ℚ × ℚ × ℚ) :=
  match eBSD sum_total_BS sum_mutual_split_BS mean_BS_mutual with
  | .error e => .error e
  | .ok equalBSD =>
    match dBSD sum_total_BS sum_diff_split_BS mean_BS_diff with
    | .error e => .error e
    | .ok diffBSD => .ok ((equalBSD + diffBSD) / 2, equalBSD, diffBSD)

/-- Lines 154–184, `get_bsd(tree_1, tree_2)`: the driver.  Note that it
performs no shared-taxa check of any kind (`get_shared` is never called). -/
def get_bsd (tree_1 tree_2 : Tree) :
    Except PyError (ℚ × ℚ × ℚ × ℚ × ℚ × ℚ × ℚ × ℚ) :=
  let bips_1 := (get_bipartitions tree_1).1
  let names_1 := (get_bipartitions tree_1).2
  let bips_2 := (get_bipartitions tree_2).1
  let names_2 := (get_bipartitions tree_2).2
  let pruned := get_pruned_bips bips_1 names_1 bips_2 names_2
  let bipsDiff := pruned.1
  let bipsEqual := pruned.2
  let sum_1 := (get_sum bips_1).1
  let sum_2 := (get_sum bips_2).1
  let sum_total_BS := sum_1 + sum_2
  let sum_mutual_BS := (get_sum bipsEqual).1
  let list_mutual_BS := (get_sum bipsEqual).2
  let sum_diff_BS := (get_sum bipsDiff).1
  let list_diff_BS := (get_sum bipsDiff).2
  let mean_BS_mutual := get_mean_BSD sum_mutual_BS list_mutual_BS
  let mean_BS_diff := get_mean_BSD sum_diff_BS list_diff_BS
  match BSD sum_total_BS sum_mutual_BS sum_diff_BS mean_BS_mutual mean_BS_diff with
  | .error e => .error e
  | .ok (BSD_val, eBSD_val, dBSD_val) =>
    .ok (BSD_val, eBSD_val, dBSD_val, sum_total_BS, sum_mutual_BS, sum_diff_BS,
      mean_BS_mutual, mean_BS_diff)

/-- CPython object identity (`is`) between a `str` from the module-global
`trees` list and a dendropy `Tree` object: objects of different types are
never the same object, so the test is false for every pair. -/
def pyIsStrTree (s : String) (t : Tree) : Bool := false

/-- Lines 216–230, the inner loop of `make_distance_matrix` for one row:
for each `i in range(len(tree_list))`, if `trees[i] is not tree_ref`
(where `trees` is the module-global list of Newick *strings*, not the
`tree_list` parameter), compute the distance and append it.  In the
script, `trees` and `tree_list` have one entry per `.treefile`, so the
`trees[i]` index is in bounds; the `getD` defaults model in-bounds
indexing only.  `wrf` is the external weighted Robinson-Foulds primitive
(`treecompare.weighted_robinson_foulds_distance`). -/
def rowLoop (wrf : Tree → Tree → ℚ) (trees : List String) (tree_list : List Tree)
    (dist_type : String) (tree_ref : Tree) :
    List Nat → List (String ⊕ ℚ) → Except PyError (List (String ⊕ ℚ))
  | [], distances => .ok distances
  | i :: rest, distances =>
    if ¬ (pyIsStrTree (trees.getD i "") tree_ref) then
      match (if dist_type = "rf" then
              Except.ok (wrf tree_ref (tree_list.getD i defaultTree))
            else
              match get_bsd tree_ref (tree_list.getD i defaultTree) with
              | .error e => Except.error (α := ℚ) e
              | .ok r => Except.ok r.1) with
      | .error e => .error e
      | .ok dist_val =>
        rowLoop wrf trees tree_list dist_type tree_ref rest (distances ++ [.inr dist_val])
    else
      rowLoop wrf trees tree_list dist_type tree_ref rest distances

/-- Lines 210–232, one data row of `make_distance_matrix`: the row label
`tree_dict[tree_ref]` followed by the cells produced by the inner loop. -/
def matrixRow (wrf : Tree → Tree → ℚ) (tree_dict : Tree → String)
    (trees : List String) (tree_list : List Tree) (dist_type : String)
    (tree_ref : Tree) : Except PyError (List (String ⊕ ℚ)) :=
  rowLoop wrf trees tree_list dist_type tree_ref
    (List.range tree_list.length) [Sum.inl (tree_dict tree_ref)]

end TreeDistances

namespace TreeDistances

/-! ## Concrete input data used by the claim theorems -/

/-- A 5-taxon tree with three support-labelled bipartitions (supports 90,
80, 70), the specification's identical-pair scenario. -/
def treeC3 : Tree :=
  ⟨["T1", "T2", "T3", "T4", "T5"],
   [⟨1, some 90, "(T1,T2);"⟩, ⟨3, some 80, "((T1,T2),T3);"⟩, ⟨24, some 70, "(T4,T5);"⟩]⟩

/-- A tree over only three taxa (fewer than the 4 the BSD method needs). -/
def smallTree : Tree := ⟨["A", "B", "C"], [⟨1, some 50, "(A,B);"⟩]⟩

/-- A tree none of whose bipartitions carries a support label. -/
def unlabelledTree : Tree :=
  ⟨["A", "B", "C", "D"], [⟨1, none, "(A,B);"⟩, ⟨2, none, "(C,D);"⟩]⟩

/-- A tree with two encoded bipartitions, for the extractor claim. -/
def twoBipTree : Tree :=
  ⟨["T1", "T2", "T3", "T4"], [⟨1, some 90, "(T1,T2);"⟩, ⟨2, some 80, "(T3,T4);"⟩]⟩

/-- A bipartition sequence holding the same bitmask twice. -/
def cexA : List Bipartition := [⟨1, none, "(T1,T2);"⟩, ⟨1, none, "(T1,T2);"⟩]

/-- A bipartition sequence holding bitmask 1 once. -/
def cexB : List Bipartition := [⟨1, none, "(T1,T2);"⟩]

/-! ## Helper lemmas about the bipartition matcher -/

lemma any_mask (l : List Bipartition) (m : Nat) :
    (l.any fun x => x.split_bitmask == m) = true ↔ m ∈ masks l := by
  simp [masks, List.any_eq_true]

lemma mem_masks_cons (b : Bipartition) (l : List Bipartition) (m : Nat) :
    m ∈ masks (b :: l) ↔ m = b.split_bitmask ∨ m ∈ masks l := by
  simp [masks]

lemma mem_masks_append_one (l : List Bipartition) (b : Bipartition) (m : Nat) :
    m ∈ masks (l ++ [b]) ↔ m ∈ masks l ∨ m = b.split_bitmask := by
  simp [masks]

/-- The first loop splits `bips1` into the entries whose bitmask occurs in
`bips2` (`bipsEqual`) and the rest (`bipsDiff`), keeping duplicates. -/
lemma firstLoop_eq (B : List Bipartition) (l : List Bipartition) :
    firstLoop B l =
      (l.filter (fun b => !(B.any fun x => x.split_bitmask == b.split_bitmask)),
       l.filter (fun b => B.any fun x => x.split_bitmask == b.split_bitmask)) := by
  induction l with
  | nil => simp [firstLoop]
  | cons b rest ih =>
    cases hb : (B.any fun x => x.split_bitmask == b.split_bitmask) <;>
      simp [firstLoop, ih, hb, List.filter_cons]

/-- Bitmask-level membership in the `bipsEqual` component of the second
loop. -/
lemma secondLoop_snd_mem (A : List Bipartition) (bs : List Bipartition) :
    ∀ (d e : List Bipartition) (m : Nat),
      m ∈ masks (secondLoop A bs (d, e)).2 ↔
        m ∈ masks e ∨ (m ∈ masks bs ∧ m ∈ masks A) := by
  induction bs with
  | nil => intro d e m; simp [secondLoop, masks]
  | cons b rest ih =>
    intro d e m
    by_cases hf : (A.any fun x => x.split_bitmask == b.split_bitmask) = true
    · have hfA : b.split_bitmask ∈ masks A := (any_mask _ _).mp hf
      by_cases hd : (e.any fun x => x.split_bitmask == b.split_bitmask) = true
      · have hdE : b.split_bitmask ∈ masks e := (any_mask _ _).mp hd
        simp only [secondLoop, if_pos hf, if_pos hd]
        rw [ih d e m, mem_masks_cons]
        constructor
        · rintro (he | ⟨hr, hA⟩)
          · exact Or.inl he
          · exact Or.inr ⟨Or.inr hr, hA⟩
        · rintro (he | ⟨(hbm | hr), hA⟩)
          · exact Or.inl he
          · exact Or.inl (hbm ▸ hdE)
          · exact Or.inr ⟨hr, hA⟩
      · simp only [secondLoop, if_pos hf, if_neg hd]
        rw [ih d (e ++ [b]) m, mem_masks_cons, mem_masks_append_one]
        constructor
        · rintro ((he | hbm) | ⟨hr, hA⟩)
          · exact Or.inl he
          · exact Or.inr ⟨Or.inl hbm, hbm ▸ hfA⟩
          · exact Or.inr ⟨Or.inr hr, hA⟩
        · rintro (he | ⟨(hbm | hr), hA⟩)
          · exact Or.inl (Or.inl he)
          · exact Or.inl (Or.inr hbm)
          · exact Or.inr ⟨hr, hA⟩
    · have hfA : b.split_bitmask ∉ masks A := fun hc => hf ((any_mask _ _).mpr hc)
      simp only [secondLoop, if_neg hf]
      by_cases hd : (d.any fun x => x.split_bitmask == b.split_bitmask) = true
      · simp only [if_pos hd]
        rw [ih d e m, mem_masks_cons]
        constructor
        · rintro (he | ⟨hr, hA⟩)
          · exact Or.inl he
          · exact Or.inr ⟨Or.inr hr, hA⟩
        · rintro (he | ⟨(hbm | hr), hA⟩)
          · exact Or.inl he
          · exact absurd (hbm ▸ hA) hfA
          · exact Or.inr ⟨hr, hA⟩
      · simp only [if_neg hd]
        rw [ih (d ++ [b]) e m, mem_masks_cons]
        constructor
        · rintro (he | ⟨hr, hA⟩)
          · exact Or.inl he
          · exact Or.inr ⟨Or.inr hr, hA⟩
        · rintro (he | ⟨(hbm | hr), hA⟩)
          · exact Or.inl he
          · exact absurd (hbm ▸ hA) hfA
          · exact Or.inr ⟨hr, hA⟩

/-- Bitmask-level membership in the `bipsDiff` component of the second
loop. -/
lemma secondLoop_fst_mem (A : List Bipartition) (bs : List Bipartition) :
    ∀ (d e : List Bipartition) (m : Nat),
      m ∈ masks (secondLoop A bs (d, e)).1 ↔
        m ∈ masks d ∨ (m ∈ masks bs ∧ m ∉ masks A) := by
  induction bs with
  | nil => intro d e m; simp [secondLoop, masks]
  | cons b rest ih =>
    intro d e m
    by_cases hf : (A.any fun x => x.split_bitmask == b.split_bitmask) = true
    · have hfA : b.split_bitmask ∈ masks A := (any_mask _ _).mp hf
      by_cases hd : (e.any fun x => x.split_bitmask == b.split_bitmask) = true
      · simp only [secondLoop, if_pos hf, if_pos hd]
        rw [ih d e m, mem_masks_cons]
        constructor
        · rintro (hdm | ⟨hr, hA⟩)
          · exact Or.inl hdm
          · exact Or.inr ⟨Or.inr hr, hA⟩
        · rintro (hdm | ⟨(hbm | hr), hA⟩)
          · exact Or.inl hdm
          · exact absurd (hbm ▸ hfA) hA
          · exact Or.inr ⟨hr, hA⟩
      · simp only [secondLoop, if_pos hf, if_neg hd]
        rw [ih d (e ++ [b]) m, mem_masks_cons]
        constructor
        · rintro (hdm | ⟨hr, hA⟩)
          · exact Or.inl hdm
          · exact Or.inr ⟨Or.inr hr, hA⟩
        · rintro (hdm | ⟨(hbm | hr), hA⟩)
          · exact Or.inl hdm
          · exact absurd (hbm ▸ hfA) hA
          · exact Or.inr ⟨hr, hA⟩
    · have hfA : b.split_bitmask ∉ masks A := fun hc => hf ((any_mask _ _).mpr hc)
      simp only [secondLoop, if_neg hf]
      by_cases hd : (d.any fun x => x.split_bitmask == b.split_bitmask) = true
      · have hdD : b.split_bitmask ∈ masks d := (any_mask _ _).mp hd
        simp only [if_pos hd]
        rw [ih d e m, mem_masks_cons]
        constructor
        · rintro (hdm | ⟨hr, hA⟩)
          · exact Or.inl hdm
          · exact Or.inr ⟨Or.inr hr, hA⟩
        · rintro (hdm | ⟨(hbm | hr), hA⟩)
          · exact Or.inl hdm
          · exact Or.inl (hbm ▸ hdD)
          · exact Or.inr ⟨hr, hA⟩
      · simp only [if_neg hd]
        rw [ih (d ++ [b]) e m, mem_masks_cons, mem_masks_append_one]
        constructor
        · rintro ((hdm | hbm) | ⟨hr, hA⟩)
          · exact Or.inl hdm
          · exact Or.inr ⟨Or.inl hbm, hbm ▸ hfA⟩
          · exact Or.inr ⟨Or.inr hr, hA⟩
        · rintro (hdm | ⟨(hbm | hr), hA⟩)
          · exact Or.inl (Or.inl hdm)
          · exact Or.inl (Or.inr hbm)
          · exact Or.inr ⟨hr, hA⟩

/-- If every element of `bs` whose bitmask occurs in `bips1` already has
its bitmask in `bipsEqual`, the second loop never extends `bipsEqual`. -/
lemma secondLoop_snd_of_covered (A : List Bipartition) :
    ∀ (bs d e : List Bipartition),
      (∀ b ∈ bs, b.split_bitmask ∈ masks A → b.split_bitmask ∈ masks e) →
      (secondLoop A bs (d, e)).2 = e := by
  intro bs
  induction bs with
  | nil => intro d e h; rfl
  | cons b rest ih =>
    intro d e h
    by_cases hf : (A.any fun x => x.split_bitmask == b.split_bitmask) = true
    · have hbe : b.split_bitmask ∈ masks e :=
        h b (List.mem_cons_self b rest) ((any_mask _ _).mp hf)
      have hd : (e.any fun x => x.split_bitmask == b.split_bitmask) = true :=
        (any_mask _ _).mpr hbe
      simp only [secondLoop, if_pos hf, if_pos hd]
      exact ih d e (fun x hx => h x (List.mem_cons_of_mem b hx))
    · simp only [secondLoop, if_neg hf]
      by_cases hd : (d.any fun x => x.split_bitmask == b.split_bitmask) = true
      · simp only [if_pos hd]
        exact ih d e (fun x hx => h x (List.mem_cons_of_mem b hx))
      · simp only [if_neg hd]
        exact ih (d ++ [b]) e (fun x hx => h x (List.mem_cons_of_mem b hx))

/-- `bipsEqual` is exactly the sublist of `bips1` whose bitmask occurs in
`bips2` — with `bips1`'s multiplicities; the second loop contributes
nothing to it. -/
lemma get_pruned_bips_snd (A : List Bipartition) (s1 : List (List String))
    (B : List Bipartition) (s2 : List (List String)) :
    (get_pruned_bips A s1 B s2).2 =
      A.filter (fun a => B.any fun x => x.split_bitmask == a.split_bitmask) := by
  unfold get_pruned_bips
  rw [firstLoop_eq]
  apply secondLoop_snd_of_covered
  intro b hb hmask
  rcases (by simpa [masks] using hmask :
    ∃ a ∈ A, a.split_bitmask = b.split_bitmask) with ⟨a, ha, hab⟩
  have hpa : (B.any fun x => x.split_bitmask == a.split_bitmask) = true := by
    rw [any_mask, hab]
    simp only [masks, List.mem_map]
    exact ⟨b, hb, rfl⟩
  simp only [masks, List.mem_map]
  exact ⟨a, List.mem_filter.mpr ⟨ha, hpa⟩, hab⟩

/-- As bitmask sets, `bipsEqual` is the intersection of the two input
mask sets. -/
lemma get_pruned_bips_snd_mem (A : List Bipartition) (s1 : List (List String))
    (B : List Bipartition) (s2 : List (List String)) (m : Nat) :
    m ∈ masks (get_pruned_bips A s1 B s2).2 ↔ (m ∈ masks A ∧ m ∈ masks B) := by
  rw [get_pruned_bips_snd]
  simp only [masks, List.mem_map, List.mem_filter, List.any_eq_true, beq_iff_eq]
  constructor
  · rintro ⟨a, ⟨haA, x, hxB, hxa⟩, ham⟩
    exact ⟨⟨a, haA, ham⟩, ⟨x, hxB, hxa.trans ham⟩⟩
  · rintro ⟨⟨a, haA, ham⟩, ⟨x, hxB, hxm⟩⟩
    exact ⟨a, ⟨haA, ⟨x, hxB, hxm.trans ham.symm⟩⟩, ham⟩

/-- As bitmask sets, `bipsDiff` is the symmetric difference of the two
input mask sets. -/
lemma get_pruned_bips_fst_mem (A : List Bipartition) (s1 : List (List String))
    (B : List Bipartition) (s2 : List (List String)) (m : Nat) :
    m ∈ masks (get_pruned_bips A s1 B s2).1 ↔
      ((m ∈ masks A ∧ m ∉ masks B) ∨ (m ∈ masks B ∧ m ∉ masks A)) := by
  unfold get_pruned_bips
  rw [firstLoop_eq, secondLoop_fst_mem]
  have h1 : m ∈ masks (A.filter fun a =>
      !(B.any fun x => x.split_bitmask == a.split_bitmask)) ↔
      (m ∈ masks A ∧ m ∉ masks B) := by
    simp only [masks, List.mem_map, List.mem_filter, Bool.not_eq_true']
    constructor
    · rintro ⟨a, ⟨haA, hnone⟩, ham⟩
      refine ⟨⟨a, haA, ham⟩, fun hc => ?_⟩
      rcases hc with ⟨x, hxB, hxm⟩
      have hmem : a.split_bitmask ∈ masks B := by
        simp only [masks, List.mem_map]
        exact ⟨x, hxB, hxm.trans ham.symm⟩
      have htrue := (any_mask B a.split_bitmask).mpr hmem
      rw [hnone] at htrue
      exact Bool.false_ne_true htrue
    · rintro ⟨⟨a, haA, ham⟩, hnB⟩
      refine ⟨a, ⟨haA, ?_⟩, ham⟩
      cases hB : (B.any fun x => x.split_bitmask == a.split_bitmask) with
      | false => rfl
      | true =>
        exfalso
        rcases (by simpa [masks] using (any_mask B a.split_bitmask).mp hB :
          ∃ x ∈ B, x.split_bitmask = a.split_bitmask) with ⟨x, hxB, hxa⟩
        exact hnB ⟨x, hxB, hxa.trans ham⟩
  rw [h1]

end TreeDistances

namespace TreeDistances

/-! ## Helper lemmas about the support aggregator and the BSD formulas -/

lemma get_sum_nums (l : List Bipartition) : ∀ acc : List Int,
    l.foldl (fun acc b => match b.label with | some num => acc ++ [num] | none => acc) acc
      = acc ++ l.filterMap Bipartition.label := by
  induction l with
  | nil => intro acc; simp
  | cons b rest ih =>
    intro acc
    cases hb : b.label with
    | none => simp [List.foldl_cons, hb, ih, List.filterMap_cons]
    | some v => simp [List.foldl_cons, hb, ih, List.filterMap_cons]

lemma get_sum_eq (l : List Bipartition) :
    get_sum l =
      (((l.filterMap Bipartition.label).map (fun num => (num : ℚ) / 100)).sum,
        l.filterMap Bipartition.label) := by
  simp only [get_sum]
  rw [get_sum_nums]
  simp

lemma get_sum_unlabelled (l : List Bipartition) (h : ∀ b ∈ l, b.label = none) :
    get_sum l = (0, []) := by
  rw [get_sum_eq]
  have hnil : l.filterMap Bipartition.label = [] := List.filterMap_eq_nil_iff.mpr h
  simp [hnil]

lemma BSD_zero_total (q2 q3 q4 q5 : ℚ) :
    BSD 0 q2 q3 q4 q5 = .error .zeroDivisionError := by
  simp [BSD, eBSD]

lemma BSD_error_is_zeroDiv (q1 q2 q3 q4 q5 : ℚ) (e : PyError)
    (h : BSD q1 q2 q3 q4 q5 = .error e) : e = .zeroDivisionError := by
  unfold BSD eBSD dBSD at h
  by_cases h0 : q1 = 0
  · simp [h0] at h
    exact h.symm
  · simp [h0] at h

end TreeDistances

namespace TreeDistances

/-! ## Claim theorems -/

/-- Claim C1, counterexample: on the sequences `cexA = [bitmask 1, bitmask 1]`
and `cexB = [bitmask 1]`, the matcher's `shared` output carries bitmask 1
twice, although the claim says each bitmask is taken once even if it occurs
redundantly in A; so the claim as stated is false. -/
theorem c1_matcher_dedup_cex :
    masks (get_pruned_bips cexA [] cexB []).2 = [1, 1] ∧
      ¬ (masks (get_pruned_bips cexA [] cexB []).2).Nodup ∧
      masks cexA = [1, 1] ∧ masks cexB = [1] := by
  decide

/-- Claim C1, amended: for every two bipartition sequences A and B the
matcher returns `shared` holding exactly the bitmasks occurring in both A
and B, `differing` holding exactly the bitmasks occurring in exactly one of
A or B, and the two are disjoint by bitmask; however deduplication applies
only to the entries contributed from B — `shared` is exactly the sublist of
A whose bitmask occurs in B, so a bitmask occurring redundantly in A is
taken redundantly into the result. -/
theorem c1_matcher_amended (A : List Bipartition) (s1 : List (List String))
    (B : List Bipartition) (s2 : List (List String)) (m : Nat) :
    ((m ∈ masks (get_pruned_bips A s1 B s2).2 ↔ (m ∈ masks A ∧ m ∈ masks B)) ∧
      (m ∈ masks (get_pruned_bips A s1 B s2).1 ↔
        ((m ∈ masks A ∧ m ∉ masks B) ∨ (m ∈ masks B ∧ m ∉ masks A))) ∧
      ¬ (m ∈ masks (get_pruned_bips A s1 B s2).2 ∧
          m ∈ masks (get_pruned_bips A s1 B s2).1)) ∧
    (get_pruned_bips A s1 B s2).2 =
      A.filter (fun a => B.any fun x => x.split_bitmask == a.split_bitmask) := by
  refine ⟨⟨get_pruned_bips_snd_mem A s1 B s2 m, get_pruned_bips_fst_mem A s1 B s2 m, ?_⟩,
    get_pruned_bips_snd A s1 B s2⟩
  rintro ⟨hs, hd⟩
  rw [get_pruned_bips_snd_mem] at hs
  rw [get_pruned_bips_fst_mem] at hd
  rcases hd with ⟨_, hnB⟩ | ⟨_, hnA⟩
  · exact hnB hs.2
  · exact hnA hs.1

/-- Claim C2: for every aggregated inputs with `sum_total = sum_1 + sum_2`
nonzero, the BSD calculator returns exactly
`eBSD = 1 - (sum_shared / sum_total) * mean_shared`,
`dBSD = (sum_differing / sum_total) * mean_differing` and
`BSD = (eBSD + dBSD) / 2`. -/
theorem c2_bsd_formula (sum_1 sum_2 sum_shared sum_differing mean_shared mean_differing : ℚ)
    (h : sum_1 + sum_2 ≠ 0) :
    BSD (sum_1 + sum_2) sum_shared sum_differing mean_shared mean_differing =
      .ok (((1 - sum_shared / (sum_1 + sum_2) * mean_shared)
              + sum_differing / (sum_1 + sum_2) * mean_differing) / 2,
           1 - sum_shared / (sum_1 + sum_2) * mean_shared,
           sum_differing / (sum_1 + sum_2) * mean_differing) := by
  simp [BSD, eBSD, dBSD, h]

/-- Claim C2, witness: the formula theorem applied at the concrete inputs
`sum_1 = sum_2 = 1`, `sum_shared = sum_differing = 1`,
`mean_shared = mean_differing = 1/2`. -/
theorem c2_bsd_formula_w :
    ((1 : ℚ) + 1 ≠ 0) ∧
      BSD ((1 : ℚ) + 1) 1 1 (1/2) (1/2) = .ok (1/2, 3/4, 1/4) := by
  refine ⟨by norm_num, ?_⟩
  rw [c2_bsd_formula 1 1 1 1 (1/2) (1/2) (by norm_num)]
  norm_num

/-- Claim C3: contrary to the claim, for the identical tree pair
`(treeC3, treeC3)` (same topology, same support values 90/80/70) the
computed BSD value is `3/10`, not `0` — the shared splits are summed only
once against a total summed over both trees and scaled by their mean, so
the equal-split component is `3/5`. -/
theorem c3_identical_trees_bsd :
    get_bsd treeC3 treeC3 = .ok (3/10, 3/5, 0, 24/5, 12/5, 0, 4/5, 0) ∧
      (3/10 : ℚ) ≠ 0 := by
  constructor
  · simp only [get_bsd, get_bipartitions, get_pruned_bips, firstLoop, secondLoop,
      get_sum, get_mean_BSD, BSD, eBSD, dBSD, treeC3]
    norm_num
  · norm_num

/-- Claim C4: contrary to the claim, BSD computation never fails with an
insufficient-overlap error: `get_bsd` performs no shared-taxa check at all
(`get_shared` is never called), and on the concrete pair of trees sharing
only the 3 taxa A, B, C it happily returns a distance value. -/
theorem c4_overlap_unchecked :
    (∀ tree_1 tree_2 : Tree, get_bsd tree_1 tree_2 ≠ .error .insufficientOverlap) ∧
      (commonTaxa smallTree smallTree).length < 4 ∧
      get_bsd smallTree smallTree = .ok (3/8, 3/4, 0, 1, 1/2, 0, 1/2, 0) := by
  refine ⟨?_, by decide, ?_⟩
  · intro tree_1 tree_2
    simp only [get_bsd]
    split
    · next e heq =>
      have hz := BSD_error_is_zeroDiv _ _ _ _ _ e heq
      subst hz
      simp
    · simp
  · simp only [get_bsd, get_bipartitions, get_pruned_bips, firstLoop, secondLoop,
      get_sum, get_mean_BSD, BSD, eBSD, dBSD, smallTree]
    norm_num

/-- Claim C5: for every pair of trees none of whose bipartitions carries a
support label (so `sum_total = 0`), the BSD calculator fails with the
division-by-zero error raised on the degenerate input — no value (hence no
NaN or infinity) is ever returned. -/
theorem c5_degenerate_sum (tree_1 tree_2 : Tree)
    (h1 : ∀ b ∈ tree_1.bips, b.label = none)
    (h2 : ∀ b ∈ tree_2.bips, b.label = none) :
    get_bsd tree_1 tree_2 = .error .zeroDivisionError := by
  have e1 := get_sum_unlabelled _ h1
  have e2 := get_sum_unlabelled _ h2
  simp only [get_bsd, get_bipartitions, e1, e2]
  norm_num [BSD_zero_total]

/-- Claim C5, witness: the degenerate-input theorem applied at the concrete
unlabelled tree. -/
theorem c5_degenerate_sum_w :
    (∀ b ∈ unlabelledTree.bips, b.label = none) ∧
      get_bsd unlabelledTree unlabelledTree = .error .zeroDivisionError :=
  ⟨by decide, c5_degenerate_sum unlabelledTree unlabelledTree (by decide) (by decide)⟩

/-- Claim C6: for every bipartition list, the support aggregator returns
the sum of `label / 100` over exactly the labelled bipartitions together
with the list of those labels, and the mean is that sum divided by the
count of labelled bipartitions, with mean `0` when the count is `0`. -/
theorem c6_support_aggregator (bipartitions : List Bipartition) :
    get_sum bipartitions =
      (((bipartitions.filterMap Bipartition.label).map (fun num => (num : ℚ) / 100)).sum,
        bipartitions.filterMap Bipartition.label) ∧
    get_mean_BSD (get_sum bipartitions).1 (get_sum bipartitions).2 =
      (if (bipartitions.filterMap Bipartition.label).length = 0 then 0
       else (get_sum bipartitions).1 /
         ((bipartitions.filterMap Bipartition.label).length : ℚ)) := by
  refine ⟨get_sum_eq bipartitions, ?_⟩
  rw [get_mean_BSD, get_sum_eq]

/-- Claim C7: contrary to the claim, the matrix builder's row for a
one-tree list contains a distance value — the self-comparison cell — and
not just the row label: the skip test compares the module-global Newick
strings (never identical to a Tree object) instead of the `tree_list`
entries, so it never skips. -/
theorem c7_diag_not_skipped :
    matrixRow (fun _ _ => 0) (fun _ => "tree_1") ["(A,B);"] [smallTree] "bsd" smallTree =
      .ok [Sum.inl "tree_1", Sum.inr (3/8)] ∧
      (Except.ok [Sum.inl "tree_1", Sum.inr ((3 : ℚ)/8)] :
        Except PyError (List (String ⊕ ℚ))) ≠ .ok [Sum.inl "tree_1"] := by
  constructor
  · simp only [matrixRow, rowLoop, pyIsStrTree, get_bsd, get_bipartitions, get_pruned_bips,
      firstLoop, secondLoop, get_sum, get_mean_BSD, BSD, eBSD, dBSD, smallTree, List.range]
    norm_num [List.range.loop]
    simp
  · simp

/-- Claim C8: bipartition matching is symmetric — for every two bipartition
sequences A and B, `matching(A, B)` and `matching(B, A)` yield the same
`shared` set by bitmask. -/
theorem c8_matching_symmetric (A B : List Bipartition)
    (s1 s2 s3 s4 : List (List String)) (m : Nat) :
    (m ∈ masks (get_pruned_bips A s1 B s2).2 ↔
      m ∈ masks (get_pruned_bips B s3 A s4).2) := by
  rw [get_pruned_bips_snd_mem, get_pruned_bips_snd_mem]
  exact and_comm

/-- Claim C9: contrary to the claim, on a tree with two bipartitions the
extractor returns, for each bipartition, the full two-element list of all
Newick strings (a list of lists), not one string per bipartition. -/
theorem c9_extractor_strings :
    (get_bipartitions twoBipTree).1 = twoBipTree.bips ∧
    (get_bipartitions twoBipTree).2 =
      [["(T1,T2);", "(T3,T4);"], ["(T1,T2);", "(T3,T4);"]] ∧
    (get_bipartitions twoBipTree).2 ≠ [["(T1,T2);"], ["(T3,T4);"]] := by
  refine ⟨rfl, by simp [get_bipartitions, twoBipTree], by simp [get_bipartitions, twoBipTree]⟩

/-- Claim C10: for every pair of argument lists, `get_shared` fails with a
`NameError` on the undefined name `firstTreeNodes` before its (inverted)
overlap assertion is ever evaluated, so no call to it returns a common-leaf
set. -/
theorem c10_get_shared_nameerror (firstTreeLeaves secondTreeLeaves : List String) :
    get_shared firstTreeLeaves secondTreeLeaves = .error (.nameError "firstTreeNodes") := rfl

end TreeDistances
